import Mathlib

/-!
Shallow embedding of the quiz application (src/test-app): the quiz session
state machine in `src/quiz.js` and the line-based input selection loop in
`src/input.js`.  Every definition is translated from the JavaScript source;
JavaScript numbers that can become `NaN` (division by zero followed by
`Math.round`) are modelled as `Option ℤ`, with `none` standing for `NaN`,
and the randomness consumed by the Fisher-Yates shuffle is an explicit
oracle `r : Nat → Nat` standing for `Math.floor(Math.random() * (i + 1))`
at loop index `i`.
-/

namespace TestApp

/-- A question record from the question bank: `question` text, `options`
labels, zero-based `answer` index, and an optional `explanation`. -/
structure Question where
  question : String
  options : List String
  answer : Nat
  explanation : Option String
deriving DecidableEq

/-- The record pushed onto `this.answers` by `Quiz.askQuestion`:
`{ question: q.question, userAnswer: index, correctAnswer: q.answer, isCorrect }`. -/
structure AnswerRecord where
  question : String
  userAnswer : Nat
  correctAnswer : Nat
  isCorrect : Bool
deriving DecidableEq

/-- Swap of the entries at positions `i` and `j`, the body of the
Fisher-Yates loop `[result[i], result[j]] = [result[j], result[i]]`.
In the source both indices are always in range (`j ≤ i < length`); the
out-of-range branch returns the list unchanged so the function is total. -/
def swapIdx {α : Type} (l : List α) (i j : Nat) : List α :=
  if h : i < l.length ∧ j < l.length then
    (l.set i (l.get ⟨j, h.2⟩)).set j (l.get ⟨i, h.1⟩)
  else l

/-- The Fisher-Yates loop of `shuffle`: `for (let i = length - 1; i > 0; i--)`
with `j = r i` the random draw at index `i`.  The counter argument is the
current value of `i`; the loop stops when it reaches `0`. -/
def fisherLoop {α : Type} (r : Nat → Nat) : Nat → List α → List α
  | 0, l => l
  | Nat.succ k, l => fisherLoop r k (swapIdx l (k + 1) (r (k + 1)))

/-- `shuffle(array)` from src/quiz.js: copies the array (the embedding is
pure, so the copy is implicit) and runs the Fisher-Yates loop from
`length - 1` down to `1`, drawing `j = r i` at each index. -/
def shuffle {α : Type} (r : Nat → Nat) (l : List α) : List α :=
  fisherLoop r (l.length - 1) l

/-- The mutable state of a `Quiz` instance: `questions` (shuffled once at
construction), `categoryName`, cursor `currentIndex`, `score`, and the
answer log `answers`. -/
structure QuizState where
  questions : List Question
  categoryName : String
  currentIndex : Nat
  score : Nat
  answers : List AnswerRecord
deriving DecidableEq

/-- `Quiz.constructor(questions, categoryName)`: shuffles the questions and
initialises `currentIndex = 0`, `score = 0`, `answers = []`.  `r` is the
randomness oracle consumed by the shuffle. -/
def mkQuiz (questions : List Question) (r : Nat → Nat) (categoryName : String) : QuizState :=
  { questions := shuffle r questions
    categoryName := categoryName
    currentIndex := 0
    score := 0
    answers := [] }

/-- `get currentQuestion()`: `this.questions[this.currentIndex] || null`. -/
def currentQuestion (s : QuizState) : Option Question :=
  s.questions[s.currentIndex]?

/-- `get totalQuestions()`: `this.questions.length`. -/
def totalQuestions (s : QuizState) : Nat :=
  s.questions.length

/-- `get isComplete()`: `this.currentIndex >= this.questions.length`. -/
def isComplete (s : QuizState) : Bool :=
  s.questions.length ≤ s.currentIndex

/-- `Math.round((num / den) * 100)` on JavaScript numbers, with `num`, `den`
natural numbers.  When `den` is `0` the JavaScript division yields `NaN`
(or `Infinity`), `Math.round` propagates it, and the result is not a
number: modelled as `none`.  Otherwise the computation is exact rational
arithmetic; `round` is `⌊x + 1/2⌋`, which is what `Math.round` computes. -/
def roundPercent (num den : Nat) : Option ℤ :=
  if den = 0 then none
  else some (round ((num : ℚ) / (den : ℚ) * 100))

/-- `get progress()`: `Math.round((this.currentIndex / this.questions.length) * 100)`. -/
def progress (s : QuizState) : Option ℤ :=
  roundPercent s.currentIndex s.questions.length

/-- The state-mutating part of `askQuestion(rl)` applied to the selected
`index`: if there is no current question it returns `false` without
touching the state (`if (!q) return false`); otherwise it computes
`isCorrect = (index === q.answer)`, pushes the answer record, increments
`score` when correct, increments `currentIndex`, and returns `isCorrect`. -/
def askQuestion (s : QuizState) (index : Nat) : QuizState × Bool :=
  match s.questions[s.currentIndex]? with
  | none => (s, false)
  | some q =>
    let isCorrect := index == q.answer
    ({ s with
        answers := s.answers ++ [⟨q.question, index, q.answer, isCorrect⟩]
        score := if isCorrect then s.score + 1 else s.score
        currentIndex := s.currentIndex + 1 },
      isCorrect)

/-- JavaScript `===` between a possibly-`NaN` number and an integer
literal: `NaN === x` is `false`. -/
def jsEq (p : Option ℤ) (x : ℤ) : Bool :=
  match p with
  | none => false
  | some a => a == x

/-- JavaScript `>=` between a possibly-`NaN` number and an integer
literal: `NaN >= x` is `false`. -/
def jsGe (p : Option ℤ) (x : ℤ) : Bool :=
  match p with
  | none => false
  | some a => x ≤ a

/-- The `message` chosen by the `if / else if` chain in `showResults` from
the computed `percentage` (which can be `NaN` when `totalQuestions` is 0,
in which case every comparison is false and the final `else` is taken). -/
def performanceMessage (percentage : Option ℤ) : String :=
  if jsEq percentage 100 then "Perfect score! Amazing!"
  else if jsGe percentage 80 then "Great job! Well done!"
  else if jsGe percentage 60 then "Good effort! Keep learning!"
  else if jsGe percentage 40 then "Not bad! Room for improvement."
  else "Keep practicing! You\x27ll get better!"

/-- The percentage computed by `showResults`:
`Math.round((this.score / this.totalQuestions) * 100)`. -/
def resultsPercentage (s : QuizState) : Option ℤ :=
  roundPercent s.score s.questions.length

/-- The review list built at the end of `showResults`: the incorrect answer
records in order, each paired with the option list of the first question
whose text equals the record's text
(`this.questions.find(q => q.question === a.question)`); `none` when the
lookup finds no question (the source would fault on `q.options` there). -/
def reviewPairs (s : QuizState) : List (AnswerRecord × Option (List String)) :=
  (s.answers.filter (fun a => !a.isCorrect)).map (fun a =>
    (a, (s.questions.find? (fun q => q.question == a.question)).map Question.options))

/-- Spec-side tier table (refinement target, following the spec's words):
percentage 100 is "perfect", 80-99 "great", 60-79 "good", 40-59 "fair",
0-39 "needs practice"; values outside 0-100 are not in the table. -/
def specTier (p : ℤ) : String :=
  if p = 100 then "perfect"
  else if 80 ≤ p ∧ p ≤ 99 then "great"
  else if 60 ≤ p ∧ p ≤ 79 then "good"
  else if 40 ≤ p ∧ p ≤ 59 then "fair"
  else if 0 ≤ p ∧ p ≤ 39 then "needs practice"
  else "out of range"

/-- The display message of `showResults` belonging to each spec tier name. -/
def tierMessage (tier : String) : String :=
  if tier = "perfect" then "Perfect score! Amazing!"
  else if tier = "great" then "Great job! Well done!"
  else if tier = "good" then "Good effort! Keep learning!"
  else if tier = "fair" then "Not bad! Room for improvement."
  else "Keep practicing! You\x27ll get better!"

/-- Whitespace trimming as performed by `answer.trim()` in `prompt`. -/
def trim (s : String) : String :=
  ⟨((s.toList.dropWhile Char.isWhitespace).reverse.dropWhile Char.isWhitespace).reverse⟩

/-- Decimal digit run at the front of a character list, as consumed by
`parseInt(_, 10)` after the optional sign. -/
def digitRun (cs : List Char) : List Char :=
  cs.takeWhile Char.isDigit

/-- Numeric value of a run of decimal digits. -/
def digitsToNat (ds : List Char) : Nat :=
  ds.foldl (fun acc c => acc * 10 + (c.toNat - 48)) 0

/-- `parseInt(s, 10)` on an already-trimmed string: an optional `+`/`-`
sign followed by a longest (possibly improper) run of decimal digits; the
parse succeeds on any non-empty digit run and ignores the rest of the
string, and yields `NaN` (modelled `none`) when no digit follows the
optional sign. -/
def parseIntJs (s : String) : Option ℤ :=
  match s.toList with
  | '-' :: rest =>
    if digitRun rest = [] then none else some (-(digitsToNat (digitRun rest) : ℤ))
  | '+' :: rest =>
    if digitRun rest = [] then none else some (digitsToNat (digitRun rest) : ℤ)
  | cs =>
    if digitRun cs = [] then none else some (digitsToNat (digitRun cs) : ℤ)

/-- The re-prompt loop of `select(rl, question, options)` fed with the
successive raw input lines.  Each line is trimmed (by `prompt`), parsed
with `parseInt(answer, 10)`, decremented, and accepted exactly when the
resulting zero-based index satisfies `index >= 0 && index < n`
(`NaN` fails both).  Returns `(rejected, index)` where `rejected` counts
the re-prompts issued before acceptance, or `none` when the input lines
run out (the source would keep waiting for more input). -/
def selectLoop (n : Nat) : List String → Nat → Option (Nat × Nat)
  | [], _ => none
  | line :: rest, rejected =>
    match parseIntJs (trim line) with
    | some m =>
      if 0 ≤ m - 1 ∧ m - 1 < (n : ℤ) then some (rejected, (m - 1).toNat)
      else selectLoop n rest (rejected + 1)
    | none => selectLoop n rest (rejected + 1)

/-- `select` applied to an option list and a stream of raw input lines. -/
def select (options : List String) (inputs : List String) : Option (Nat × Nat) :=
  selectLoop options.length inputs 0

/-- Replacing the entry at `i` while consing the old entry in front is a
permutation of consing the new entry onto the original list. -/
lemma get_cons_set_perm {α : Type} :
    ∀ (l : List α) (i : Nat) (h : i < l.length) (a : α),
      (l.get ⟨i, h⟩ :: l.set i a).Perm (a :: l)
  | [], i, h, _ => absurd h (by simp)
  | x :: xs, 0, _, a => by
    simpa using List.Perm.swap a x xs
  | x :: xs, Nat.succ i, h, a => by
    have ih := get_cons_set_perm xs i (by simpa using h) a
    have h1 : ((x :: xs).get ⟨i + 1, h⟩ :: (x :: xs).set (i + 1) a)
        = xs.get ⟨i, by simpa using h⟩ :: x :: xs.set i a := by simp
    rw [h1]
    exact (List.Perm.swap x _ _).trans ((ih.cons x).trans (List.Perm.swap a x xs))

/-- A `swapIdx` never changes the multiset of entries. -/
lemma swapIdx_perm {α : Type} (l : List α) (i j : Nat) : (swapIdx l i j).Perm l := by
  unfold swapIdx
  split
  · rename_i h
    obtain ⟨hi, hj⟩ := h
    by_cases hij : i = j
    · subst hij
      have h0 := get_cons_set_perm l i hi (l.get ⟨i, hi⟩)
      have h1 : (l.set i (l.get ⟨i, hi⟩)).set i (l.get ⟨i, hi⟩) = l.set i (l.get ⟨i, hi⟩) :=
        List.set_set _ _ _ _
      rw [h1]
      exact h0.cons_inv
    · set a := l.get ⟨i, hi⟩ with ha
      set b := l.get ⟨j, hj⟩ with hb
      have hlen : j < (l.set i b).length := by simpa using hj
      have hA : (a :: l.set i b).Perm (b :: l) := get_cons_set_perm l i hi b
      have hB : ((l.set i b).get ⟨j, hlen⟩ :: (l.set i b).set j a).Perm (a :: l.set i b) :=
        get_cons_set_perm (l.set i b) j hlen a
      have hget : (l.set i b).get ⟨j, hlen⟩ = b := by
        have := List.getElem_set_ne (l := l) (a := b) hij (by simpa using hj)
        simpa [hb] using this
      rw [hget] at hB
      exact (hB.trans hA).cons_inv
  · exact List.Perm.refl l

/-- The Fisher-Yates loop never changes the multiset of entries. -/
lemma fisherLoop_perm {α : Type} (r : Nat → Nat) :
    ∀ (k : Nat) (l : List α), (fisherLoop r k l).Perm l
  | 0, _ => List.Perm.refl _
  | Nat.succ k, l =>
    (fisherLoop_perm r k (swapIdx l (k + 1) (r (k + 1)))).trans
      (swapIdx_perm l (k + 1) (r (k + 1)))

/-- `shuffle` returns a permutation of its input. -/
lemma shuffle_perm {α : Type} (r : Nat → Nat) (l : List α) : (shuffle r l).Perm l :=
  fisherLoop_perm r (l.length - 1) l

/-- `shuffle` preserves length. -/
lemma shuffle_length {α : Type} (r : Nat → Nat) (l : List α) :
    (shuffle r l).length = l.length :=
  (shuffle_perm r l).length_eq

/-- The session states that actually arise at run time: the constructor's
output and anything produced from a reachable state by the state-mutating
part of `askQuestion`. -/
inductive Reachable : QuizState → Prop where
  | init (questions : List Question) (r : Nat → Nat) (categoryName : String) :
      Reachable (mkQuiz questions r categoryName)
  | step (s : QuizState) (index : Nat) :
      Reachable s → Reachable (askQuestion s index).1

/-- The session invariant: score bounded by the cursor, cursor bounded by
the question count, the answer log exactly as long as the cursor, and each
log entry carrying the text of the question asked at its position. -/
def Inv (s : QuizState) : Prop :=
  s.score ≤ s.currentIndex ∧
  s.currentIndex ≤ s.questions.length ∧
  s.answers.length = s.currentIndex ∧
  ∀ k : Nat, k < s.answers.length →
    s.answers[k]?.map AnswerRecord.question = s.questions[k]?.map Question.question

/-- When the session is complete (`questions[currentIndex]` is `undefined`),
`askQuestion` returns `false` and leaves the state untouched. -/
lemma askQuestion_of_none (s : QuizState) (index : Nat)
    (h : s.questions[s.currentIndex]? = none) : askQuestion s index = (s, false) := by
  simp [askQuestion, h]

/-- When a current question `q` exists, `askQuestion` produces exactly the
state with the record appended, the conditional score bump, and the cursor
advanced, returning `index == q.answer`. -/
lemma askQuestion_of_some (s : QuizState) (index : Nat) (q : Question)
    (h : s.questions[s.currentIndex]? = some q) :
    askQuestion s index =
      ({ s with
          answers := s.answers ++ [⟨q.question, index, q.answer, index == q.answer⟩]
          score := if index == q.answer then s.score + 1 else s.score
          currentIndex := s.currentIndex + 1 },
        (index == q.answer)) := by
  simp [askQuestion, h]

/-- Every reachable session state satisfies the invariant. -/
lemma reachable_inv (s : QuizState) (hr : Reachable s) : Inv s := by
  induction hr with
  | init questions r categoryName =>
    refine ⟨Nat.le_refl 0, Nat.zero_le _, rfl, ?_⟩
    intro k hk
    simp [mkQuiz] at hk
  | step s index _ ih =>
    obtain ⟨h1, h2, h3, h4⟩ := ih
    cases hq : s.questions[s.currentIndex]? with
    | none =>
      rw [askQuestion_of_none s index hq]
      exact ⟨h1, h2, h3, h4⟩
    | some q =>
      have hlt : s.currentIndex < s.questions.length := (List.getElem?_eq_some.1 hq).1
      rw [askQuestion_of_some s index q hq]
      refine ⟨by dsimp only; split <;> omega, by dsimp only; omega, by simp [h3], ?_⟩
      intro k hk
      simp only [List.length_append, List.length_cons, List.length_nil] at hk
      dsimp only at hk ⊢
      rcases Nat.lt_or_ge k s.answers.length with hklt | hkge
      · have hgl : (s.answers ++ [(⟨q.question, index, q.answer, index == q.answer⟩ :
            AnswerRecord)])[k]? = s.answers[k]? := by
          rw [List.getElem?_append]
          simp [hklt]
        rw [hgl]
        exact h4 k hklt
      · have hkeq : k = s.answers.length := by omega
        subst hkeq
        have hgl : (s.answers ++ [(⟨q.question, index, q.answer, index == q.answer⟩ :
            AnswerRecord)])[s.answers.length]?
            = some (⟨q.question, index, q.answer, index == q.answer⟩ : AnswerRecord) := by
          rw [List.getElem?_append_right (Nat.le_refl _)]
          simp
        rw [hgl, h3, hq]
        rfl

/-- Closed form of the exact rational rounding: for a positive denominator,
`Math.round((num / den) * 100)` is the natural number
`(200 * num + den) / (2 * den)`. -/
lemma roundPercent_eq (num den : Nat) (h : 0 < den) :
    roundPercent num den = some (((200 * num + den) / (2 * den) : ℕ) : ℤ) := by
  have hden : (den : ℚ) ≠ 0 := Nat.cast_ne_zero.2 h.ne'
  have hval : (num : ℚ) / (den : ℚ) * 100 + 1 / 2
      = ((200 * num + den : ℕ) : ℚ) / ((2 * den : ℕ) : ℚ) := by
    push_cast
    field_simp
    ring
  have hfloor : ⌊((200 * num + den : ℕ) : ℚ) / ((2 * den : ℕ) : ℚ)⌋
      = (((200 * num + den) / (2 * den) : ℕ) : ℤ) := by
    have := Rat.floor_intCast_div_natCast ((200 * num + den : ℕ) : ℤ) (2 * den)
    rw [Int.ofNat_ediv]
    simpa using this
  simp only [roundPercent, if_neg h.ne', round_eq, hval, hfloor]

/-- The rounded percentage never exceeds 100 when `num ≤ den`. -/
lemma roundPercent_le (num den : Nat) (h : 0 < den) (hle : num ≤ den) :
    (200 * num + den) / (2 * den) ≤ 100 := by
  have : (200 * num + den) / (2 * den) < 101 := by
    rw [Nat.div_lt_iff_lt_mul (by omega)]
    omega
  omega

/-- On every percentage the results screen can actually show, the message
chosen by the `if / else if` chain is exactly the message of the spec's
tier table. -/
lemma message_matches_tier :
    ∀ p : Nat, p < 101 →
      performanceMessage (some (p : ℤ)) = tierMessage (specTier (p : ℤ)) ∧
      specTier (p : ℤ) ≠ "out of range" := by
  decide

/-- In a list of questions with pairwise-distinct texts, looking a question
up by its own text finds exactly that question. -/
lemma find_text_nodup :
    ∀ (qs : List Question), (qs.map Question.question).Nodup →
      ∀ (k : Nat) (hk : k < qs.length),
        qs.find? (fun q2 => q2.question == (qs.get ⟨k, hk⟩).question) = some (qs.get ⟨k, hk⟩)
  | [], _, k, hk => absurd hk (by simp)
  | q :: rest, hnd, 0, _ => by simp [List.find?]
  | q :: rest, hnd, Nat.succ k, hk => by
    have hk2 : k < rest.length := by simpa using hk
    have hnd2 : (rest.map Question.question).Nodup := (List.nodup_cons.1 (by simpa using hnd)).2
    have hnotin : q.question ∉ rest.map Question.question :=
      (List.nodup_cons.1 (by simpa using hnd)).1
    have hmem : (rest.get ⟨k, hk2⟩).question ∈ rest.map Question.question :=
      List.mem_map_of_mem Question.question (rest.get_mem k hk2)
    have hne : (q.question == (rest.get ⟨k, hk2⟩).question) = false := by
      rw [beq_eq_false_iff_ne]
      intro hcontra
      exact hnotin (hcontra ▸ hmem)
    have hgl : ((q :: rest).get ⟨k + 1, hk⟩) = rest.get ⟨k, hk2⟩ := by simp
    rw [hgl]
    rw [List.find?_cons]
    rw [hne]
    exact find_text_nodup rest hnd2 k hk2

/-- A concrete question used for witnesses. -/
def sampleQ : Question := ⟨"2+2", ["3", "4"], 1, none⟩

/-- A concrete one-question session (identity randomness oracle). -/
def sampleQuiz : QuizState := mkQuiz [sampleQ] (fun i => i) "Math"

/-- The zero-question session: immediately complete. -/
def emptyQuiz : QuizState := mkQuiz [] (fun i => i) "Empty"

/-- Claim C1: on an in-progress session whose current question is `q`, one
`askQuestion` call with an in-range selected index appends exactly one
answer record whose `isCorrect` is `index == q.answer`, bumps the score by
one exactly when the answer is correct, advances the cursor by one, and
returns whether the answer was correct. -/
theorem submitAnswer_effects (s : QuizState) (q : Question) (index : Nat)
    (hq : currentQuestion s = some q) (_hin : index < q.options.length) :
    (askQuestion s index).1.answers
        = s.answers ++ [⟨q.question, index, q.answer, index == q.answer⟩] ∧
    (askQuestion s index).1.score
        = (if index == q.answer then s.score + 1 else s.score) ∧
    (askQuestion s index).1.currentIndex = s.currentIndex + 1 ∧
    (askQuestion s index).2 = (index == q.answer) ∧
    ((askQuestion s index).2 = true ↔ index = q.answer) := by
  have h := askQuestion_of_some s index q hq
  rw [h]
  exact ⟨rfl, rfl, rfl, rfl, beq_iff_eq⟩

/-- Witness for C1 at a concrete one-question session with the correct
option selected. -/
theorem submitAnswer_effects_witness :
    (askQuestion sampleQuiz 1).1.answers
        = sampleQuiz.answers ++ [⟨sampleQ.question, 1, sampleQ.answer, 1 == sampleQ.answer⟩] ∧
    (askQuestion sampleQuiz 1).1.score
        = (if 1 == sampleQ.answer then sampleQuiz.score + 1 else sampleQuiz.score) ∧
    (askQuestion sampleQuiz 1).1.currentIndex = sampleQuiz.currentIndex + 1 ∧
    (askQuestion sampleQuiz 1).2 = (1 == sampleQ.answer) ∧
    ((askQuestion sampleQuiz 1).2 = true ↔ 1 = sampleQ.answer) :=
  submitAnswer_effects sampleQuiz sampleQ 1 (by decide) (by decide)

/-- Claim C2: every reachable session state (constructor output or the
result of an `askQuestion` step) satisfies
`score ≤ currentIndex ≤ questions.length` and
`answers.length = currentIndex`. -/
theorem session_invariant (s : QuizState) (hr : Reachable s) :
    s.score ≤ s.currentIndex ∧ s.currentIndex ≤ s.questions.length ∧
    s.answers.length = s.currentIndex :=
  ⟨(reachable_inv s hr).1, (reachable_inv s hr).2.1, (reachable_inv s hr).2.2.1⟩

/-- Witness for C2 at the freshly constructed one-question session. -/
theorem session_invariant_witness :
    sampleQuiz.score ≤ sampleQuiz.currentIndex ∧
    sampleQuiz.currentIndex ≤ sampleQuiz.questions.length ∧
    sampleQuiz.answers.length = sampleQuiz.currentIndex :=
  session_invariant sampleQuiz (Reachable.init [sampleQ] (fun i => i) "Math")

/-- Claim C6: `shuffle` returns a permutation of its input (same length and
same multiset of elements), and the empty and singleton sequences shuffle
to themselves.  The embedding is pure, so the input list is a value the
caller keeps unchanged, matching the copy the source makes. -/
theorem shuffle_permutation {α : Type} (r : Nat → Nat) (l : List α) (a : α) :
    (shuffle r l).Perm l ∧
    (shuffle r l).length = l.length ∧
    ((shuffle r l : Multiset α) = (l : Multiset α)) ∧
    shuffle r ([] : List α) = [] ∧
    shuffle r [a] = [a] :=
  ⟨shuffle_perm r l, shuffle_length r l, Multiset.coe_eq_coe.2 (shuffle_perm r l), rfl, rfl⟩

/-- Claim C9 counterexample: on the already-complete zero-question session,
`askQuestion` does not fail loudly; it returns the ordinary correctness
result `false` and leaves the state unchanged, which refutes the claim
that a completed session never yields an ordinary answer-correctness
result. -/
theorem complete_submit_silent_cex :
    isComplete emptyQuiz = true ∧ askQuestion emptyQuiz 0 = (emptyQuiz, false) := by
  decide

/-- Claim C9 as amended: calling `askQuestion` on a complete session is
silently absorbed — it returns the ordinary result `false` and performs no
state change at all. -/
theorem complete_submit_amended (s : QuizState) (index : Nat)
    (h : isComplete s = true) : askQuestion s index = (s, false) :=
  askQuestion_of_none s index (List.getElem?_eq_none (of_decide_eq_true h))

/-- Witness for the amended C9 at a concrete complete session. -/
theorem complete_submit_amended_witness :
    askQuestion (mkQuiz [] (fun i => i) "Again") 3 = (mkQuiz [] (fun i => i) "Again", false) :=
  complete_submit_amended (mkQuiz [] (fun i => i) "Again") 3 (by decide)

/-- Claim C3: for a session with at least one question, the results screen
shows an integer percentage between 0 and 100 and its message is exactly
the message of the spec's inclusive-lower-bound tier table; in particular
5/5 is 100 percent ("perfect"), 4/5 is 80 ("great"), 3/5 is 60 ("good"),
2/5 is 40 ("fair") and 1/5 is 20 ("needs practice"). -/
theorem results_tier_table (s : QuizState) (hr : Reachable s)
    (ht : 0 < s.questions.length) :
    (∃ p : Nat, p ≤ 100 ∧ resultsPercentage s = some (p : ℤ) ∧
      performanceMessage (some (p : ℤ)) = tierMessage (specTier (p : ℤ)) ∧
      specTier (p : ℤ) ≠ "out of range") ∧
    roundPercent 5 5 = some 100 ∧ specTier 100 = "perfect" ∧
    roundPercent 4 5 = some 80 ∧ specTier 80 = "great" ∧
    roundPercent 3 5 = some 60 ∧ specTier 60 = "good" ∧
    roundPercent 2 5 = some 40 ∧ specTier 40 = "fair" ∧
    roundPercent 1 5 = some 20 ∧ specTier 20 = "needs practice" := by
  have hinv := reachable_inv s hr
  have hscore : s.score ≤ s.questions.length := le_trans hinv.1 hinv.2.1
  have hp := roundPercent_eq s.score s.questions.length ht
  have hle := roundPercent_le s.score s.questions.length ht hscore
  have hmt := message_matches_tier ((200 * s.score + s.questions.length)
    / (2 * s.questions.length)) (by omega)
  refine ⟨⟨(200 * s.score + s.questions.length) / (2 * s.questions.length),
      hle, hp, hmt.1, hmt.2⟩, ?_, by decide, ?_, by decide, ?_, by decide,
      ?_, by decide, ?_, by decide⟩
  · rw [roundPercent_eq 5 5 (by norm_num)]; norm_num
  · rw [roundPercent_eq 4 5 (by norm_num)]; norm_num
  · rw [roundPercent_eq 3 5 (by norm_num)]; norm_num
  · rw [roundPercent_eq 2 5 (by norm_num)]; norm_num
  · rw [roundPercent_eq 1 5 (by norm_num)]; norm_num

/-- Witness for C3 at the freshly constructed one-question session (score
0 of 1, percentage 0, tier "needs practice"). -/
theorem results_tier_table_witness :
    (∃ p : Nat, p ≤ 100 ∧ resultsPercentage sampleQuiz = some (p : ℤ) ∧
      performanceMessage (some (p : ℤ)) = tierMessage (specTier (p : ℤ)) ∧
      specTier (p : ℤ) ≠ "out of range") ∧
    roundPercent 5 5 = some 100 ∧ specTier 100 = "perfect" ∧
    roundPercent 4 5 = some 80 ∧ specTier 80 = "great" ∧
    roundPercent 3 5 = some 60 ∧ specTier 60 = "good" ∧
    roundPercent 2 5 = some 40 ∧ specTier 40 = "fair" ∧
    roundPercent 1 5 = some 20 ∧ specTier 20 = "needs practice" :=
  results_tier_table sampleQuiz (Reachable.init [sampleQ] (fun i => i) "Math") (by decide)

/-- Claim C4 counterexample: on the zero-question session the computed
percentage is `NaN` (modelled `none`), not the claimed exact 0. -/
theorem zero_total_percentage_cex :
    resultsPercentage emptyQuiz ≠ some 0 ∧ resultsPercentage emptyQuiz = none := by
  decide

/-- Claim C4 as amended: a zero-question session reports the
"needs practice" tier message, but its percentage is `NaN` (the JavaScript
`0/0` rounded, modelled `none`) rather than 0 — the division is not
guarded. -/
theorem zero_total_results_amended (s : QuizState) (h : s.questions.length = 0) :
    resultsPercentage s = none ∧
    performanceMessage (resultsPercentage s) = tierMessage "needs practice" := by
  have h1 : resultsPercentage s = none := by simp [resultsPercentage, roundPercent, h]
  exact ⟨h1, by rw [h1]; decide⟩

/-- Witness for the amended C4 at the concrete zero-question session. -/
theorem zero_total_results_amended_witness :
    resultsPercentage emptyQuiz = none ∧
    performanceMessage (resultsPercentage emptyQuiz) = tierMessage "needs practice" :=
  zero_total_results_amended emptyQuiz (by decide)

/-- Claim C5 counterexample: on the zero-question session, `progress` is
`NaN` (modelled `none`), not the claimed 0 — the division by zero is not
guarded. -/
theorem progress_zero_guard_cex :
    progress emptyQuiz ≠ some 0 ∧ progress emptyQuiz = none := by
  decide

/-- Claim C5 as amended: `progress` returns the rounded integer percentage
`round(100 * position / total)` (not the bare fraction `position / total`)
when the session has questions, and is `NaN` (modelled `none`) when it has
none. -/
theorem progress_amended (s : QuizState) :
    (0 < s.questions.length →
      progress s = some (((200 * s.currentIndex + s.questions.length)
        / (2 * s.questions.length) : ℕ) : ℤ)) ∧
    (s.questions.length = 0 → progress s = none) :=
  ⟨fun h => roundPercent_eq s.currentIndex s.questions.length h,
   fun h => by simp [progress, roundPercent, h]⟩

/-- Witness for the amended C5 at the concrete one-question session. -/
theorem progress_amended_witness :
    progress sampleQuiz = some (((200 * sampleQuiz.currentIndex + sampleQuiz.questions.length)
      / (2 * sampleQuiz.questions.length) : ℕ) : ℤ) :=
  (progress_amended sampleQuiz).1 (by decide)

/-- Whenever the selection loop accepts, the zero-based index it returns is
below the option count. -/
lemma selectLoop_index_lt (n : Nat) :
    ∀ (inputs : List String) (rej k i : Nat),
      selectLoop n inputs rej = some (k, i) → i < n
  | [], _, _, _, h => by simp [selectLoop] at h
  | line :: rest, rej, k, i, h => by
    simp only [selectLoop] at h
    cases hp : parseIntJs (trim line) with
    | none =>
      rw [hp] at h
      exact selectLoop_index_lt n rest (rej + 1) k i h
    | some m =>
      rw [hp] at h
      dsimp only at h
      by_cases hc : 0 ≤ m - 1 ∧ m - 1 < (n : ℤ)
      · rw [if_pos hc] at h
        have hik : (rej, (m - 1).toNat) = (k, i) := Option.some_injective _ h
        have hi : i = (m - 1).toNat := (Prod.ext_iff.1 hik).2.symm
        omega
      · rw [if_neg hc] at h
        exact selectLoop_index_lt n rest (rej + 1) k i h

/-- Claim C7: whenever `select` returns on a non-empty option list, the
zero-based index it yields is in range — every out-of-range or non-numeric
line was rejected with a re-prompt instead. -/
theorem select_in_range (options inputs : List String) (k i : Nat)
    (_hne : options ≠ []) (h : select options inputs = some (k, i)) :
    i < options.length :=
  selectLoop_index_lt options.length inputs 0 k i h

/-- Witness for C7: with 3 options and raw inputs "abc", "9", "2" the loop
re-prompts twice (rejected count 2), then returns index 1, which is in
range. -/
theorem select_in_range_witness :
    select ["A", "B", "C"] ["abc", "9", "2"] = some (2, 1) ∧ (1 : Nat) < 3 :=
  ⟨by decide, select_in_range ["A", "B", "C"] ["abc", "9", "2"] 2 1 (by decide) (by decide)⟩

/-- Claim C10: the selection prompt accepts any trimmed raw input line
whose base-10 integer prefix parse yields `n` with
`1 ≤ n ≤ options.length`, even when the line is not a pure numeral: the
first such line is accepted immediately (rejected count 0, so no
re-prompt) and yields the zero-based index `n - 1`, which is in range. -/
theorem select_accepts_numeric_first_line (options : List String) (line : String)
    (rest : List String) (n : ℤ)
    (hp : parseIntJs (trim line) = some n)
    (h1 : 1 ≤ n) (h2 : n ≤ (options.length : ℤ)) :
    select options (line :: rest) = some (0, (n - 1).toNat) ∧
    (n - 1).toNat < options.length := by
  simp only [select, selectLoop]
  rw [hp]
  dsimp only
  rw [if_pos ⟨by omega, by omega⟩]
  exact ⟨rfl, by omega⟩

/-- Witness for C10: with 3 options the raw input "2x" prefix-parses to 2,
is accepted on the first attempt with no re-prompt, and returns zero-based
index 1. -/
theorem select_accepts_numeric_first_line_witness :
    parseIntJs (trim "2x") = some 2 ∧ select ["A", "B", "C"] ["2x"] = some (0, 1) :=
  ⟨by decide,
   (select_accepts_numeric_first_line ["A", "B", "C"] "2x" [] 2
     (by decide) (by decide) (by decide)).1⟩

/-- First question of the duplicate-text counterexample session. -/
def dupQ1 : Question := ⟨"Q", ["a", "b"], 0, none⟩

/-- Second question of the duplicate-text counterexample session: same text
as `dupQ1`, different options. -/
def dupQ2 : Question := ⟨"Q", ["c", "d"], 0, none⟩

/-- Two-question session whose questions share their prompt text. -/
def dupQuiz : QuizState := mkQuiz [dupQ1, dupQ2] (fun i => i) "Dup"

/-- The duplicate-text session after answering the first question correctly
(index 0) and the second incorrectly (index 1): reachable and complete. -/
def dupS2 : QuizState := (askQuestion (askQuestion dupQuiz 0).1 1).1

/-- Claim C8 counterexample: in the completed duplicate-text session the
only incorrect record originates from the question at position 1 (options
["c", "d"]), yet the review pairs it with ["a", "b"], the options of the
first question whose text matches — not its originating question's. -/
theorem review_lookup_mismatch_cex :
    dupS2.answers.filter (fun r => !r.isCorrect) = [⟨"Q", 1, 0, false⟩] ∧
    dupS2.questions[1]? = some dupQ2 ∧
    dupQ2.options = ["c", "d"] ∧
    reviewPairs dupS2 = [(⟨"Q", 1, 0, false⟩, some ["a", "b"])] ∧
    (["a", "b"] : List String) ≠ ["c", "d"] := by
  decide

/-- Claim C8 as amended: the review list is the ordered subsequence of
incorrect answer records, each paired with the options of the *first*
question whose text equals the record's text; when no two questions of the
session share their text, that is exactly the originating question's
option list. -/
theorem review_pairs_amended (s : QuizState) (hr : Reachable s)
    (hnd : (s.questions.map Question.question).Nodup)
    (k : Nat) (a : AnswerRecord) (q2 : Question)
    (ha : s.answers[k]? = some a) (hq2 : s.questions[k]? = some q2)
    (hic : a.isCorrect = false) :
    (a, some q2.options) ∈ reviewPairs s ∧
    (reviewPairs s).map Prod.fst = s.answers.filter (fun r => !r.isCorrect) := by
  have hk : k < s.answers.length := (List.getElem?_eq_some.1 ha).1
  have hq : k < s.questions.length := (List.getElem?_eq_some.1 hq2).1
  constructor
  · have hinv := (reachable_inv s hr).2.2.2 k hk
    rw [ha, hq2] at hinv
    have htext : a.question = q2.question := Option.some_injective _ hinv
    have hamem : a ∈ s.answers := by
      have := List.getElem?_eq_some.1 ha
      obtain ⟨hlt, hgl⟩ := this
      exact hgl ▸ List.getElem_mem hlt
    have hfmem : a ∈ s.answers.filter (fun r => !r.isCorrect) :=
      List.mem_filter.2 ⟨hamem, by simp [hic]⟩
    have h5 := List.mem_map_of_mem
      (fun r => (r, (s.questions.find? (fun q3 => q3.question == r.question)).map
        Question.options)) hfmem
    dsimp only at h5
    rw [htext] at h5
    have hgetq : s.questions.get ⟨k, hq⟩ = q2 := by
      have := List.getElem?_eq_some.1 hq2
      obtain ⟨hlt, hgl⟩ := this
      simpa [List.get_eq_getElem] using hgl
    have hfind := find_text_nodup s.questions hnd k hq
    rw [hgetq] at hfind
    rw [hfind] at h5
    exact h5
  · simp [reviewPairs, List.map_map, Function.comp_def, List.map_id]

/-- First question of the distinct-text witness session. -/
def wQ1 : Question := ⟨"A?", ["x", "y"], 0, none⟩

/-- Second question of the distinct-text witness session. -/
def wQ2 : Question := ⟨"B?", ["u", "v"], 1, none⟩

/-- Distinct-text two-question session. -/
def wQuiz : QuizState := mkQuiz [wQ1, wQ2] (fun i => i) "W"

/-- The distinct-text session after answering the first question wrong
(index 1, answer 0) and the second right (index 1, answer 1). -/
def wS2 : QuizState := (askQuestion (askQuestion wQuiz 1).1 1).1

/-- Witness for the amended C8: in the completed distinct-text session the
incorrect record at position 0 is paired with its own question's options. -/
theorem review_pairs_amended_witness :
    ((⟨"A?", 1, 0, false⟩ : AnswerRecord), some ["x", "y"]) ∈ reviewPairs wS2 ∧
    (reviewPairs wS2).map Prod.fst = wS2.answers.filter (fun r => !r.isCorrect) :=
  review_pairs_amended wS2
    (Reachable.step _ 1 (Reachable.step _ 1 (Reachable.init [wQ1, wQ2] (fun i => i) "W")))
    (by decide) 0 ⟨"A?", 1, 0, false⟩ ⟨"A?", ["x", "y"], 0, none⟩
    (by decide) (by decide) (by decide)

end TestApp
